/-
Verification of the SoundGrabber audio post-processing pipeline
(`audio_recorder.py`, method `save_audio_file` and its helpers
`trim_silence_int32`, `find_first_transient`, `apply_fade_int32`).

Shallow embedding conventions:
* An audio buffer (a numpy `int32` array of shape `[frame_count, channel_count]`)
  is a `List (List ℤ)`: a list of frames, each frame a list of channel samples.
  numpy arrays are rectangular; the embedding is stated on plain lists and the
  theorems never depend on raggedness.
* numpy `int32` arithmetic that can overflow (`audio_array ** 2`, `np.abs`)
  is modelled exactly with `wrap32` (two's-complement wraparound at 32 bits).
* Floating-point computations on integer data (`np.mean`, threshold
  comparisons, ramp multiplication, `np.sqrt`) are modelled in exact integer /
  rational arithmetic: each float comparison is replaced by the equivalent
  exact comparison, written out in the comment at its definition.
* Fallible numpy operations are modelled with `Option` / explicit error
  outcomes: `np.argmax` on an empty array raises `ValueError`, and a shape
  mismatch in a broadcast assignment raises `ValueError`; both are caught by
  the `try/except` at the boundary of `save_audio_file` ("Error saving audio
  file"), which writes no file.
-/
import Mathlib

set_option maxHeartbeats 1000000

namespace SoundGrabber

/-- Two's-complement wraparound of an integer into the `int32` range
`[-2^31, 2^31)`, as numpy does on overflow. -/
def wrap32 (x : ℤ) : ℤ := (x + 2 ^ 31) % 2 ^ 32 - 2 ^ 31

/-- Squaring of one `int32` sample as numpy computes `audio_array ** 2`:
the mathematical square, wrapped back into `int32`. -/
def sq32 (s : ℤ) : ℤ := wrap32 (s * s)

/-- Absolute value of one `int32` sample as numpy computes `np.abs`:
`np.abs` of the most negative value `-2^31` wraps back to `-2^31`. -/
def npAbs32 (s : ℤ) : ℤ := wrap32 |s|

/-- Sum of the wrapped squares of every sample of every frame: the exact value
of `np.sum` over `audio_array ** 2` (the per-element squares wrap in `int32`,
the sum itself is exact). -/
def sumSq (audio : List (List ℤ)) : ℤ :=
  (audio.map fun fr => (fr.map sq32).sum).sum

/-- Total number of samples (over all frames and channels), the element count
`np.mean` divides by. -/
def numSamples (audio : List (List ℤ)) : ℕ :=
  (audio.map List.length).sum

/-- The level gate of `save_audio_file`:
`rms = np.sqrt(np.mean(audio_array ** 2)); if rms < 1e-6: ...`.
With `S = sumSq audio` and `N = numSamples audio`, `mean = S / N`.
`sqrt(S / N) < 1e-6` holds exactly when `0 ≤ S / N < 1e-12`, i.e.
`0 ≤ S ∧ S * 10^12 < N`.  The degenerate float cases agree with this
formula: if `N = 0` the mean is NaN (so the `<` test is false, and indeed
`S = 0` and `0 * 10^12 < 0` is false); if `S < 0` (possible, because the
squares wrap in `int32`) the sqrt is NaN and the `<` test is false. -/
def rms_below_floor (audio : List (List ℤ)) : Bool :=
  decide (0 ≤ sumSq audio) && decide (sumSq audio * 10 ^ 12 < (numSamples audio : ℤ))

/-- Linear silence threshold of `trim_silence_int32`:
`int(10 ** (threshold_db / 20) * np.iinfo(np.int32).max)` with
`threshold_db = -60`, i.e. the integer part of `2147483647 / 1000`. -/
def threshold_linear : ℤ := 2147483647 / 1000

/-- Trailing guard band of `trim_silence_int32` in frames:
`int(min_silence_ms * fs / 1000)` with `min_silence_ms = 2`. -/
def min_silence_samples (fs : ℕ) : ℕ := 2 * fs / 1000

/-- Frame-level silence test of `trim_silence_int32`:
`np.all(np.abs(audio_array) < threshold_linear, axis=1)` — a frame is silent
iff every channel's (wrapped) absolute sample value is below the threshold. -/
def isSilentFrame (fr : List ℤ) : Bool :=
  fr.all fun s => decide (npAbs32 s < threshold_linear)

/-- `np.argmax` on a boolean vector: index of the first `true`, and `0` when
every entry is `false` (numpy returns the first maximal element). -/
def argmaxBool (l : List Bool) : ℕ :=
  if l.any id then l.findIdx id else 0

/-- The local `is_silent` of `trim_silence_int32`:
`np.all(np.abs(audio_array) < threshold_linear, axis=1)`. -/
def is_silent (audio : List (List ℤ)) : List Bool := audio.map isSilentFrame

/-- The local `start_trim` of `trim_silence_int32` before the all-silent
correction: `np.argmax(~is_silent)`. -/
def start_trim_raw (audio : List (List ℤ)) : ℕ :=
  argmaxBool ((is_silent audio).map not)

/-- The local `start_trim` of `trim_silence_int32` after the correction
`if start_trim == 0 and is_silent[0]: start_trim = len(is_silent)`. -/
def start_trim (audio : List (List ℤ)) : ℕ :=
  if start_trim_raw audio = 0 ∧ (is_silent audio).headD false then
    (is_silent audio).length
  else start_trim_raw audio

/-- The local `end_trim` of `trim_silence_int32`:
`end_trim = len(is_silent) - np.argmax(~is_silent[::-1])` followed by
`end_trim = min(end_trim + min_silence_samples, len(is_silent))`. -/
def end_trim (audio : List (List ℤ)) (fs : ℕ) : ℕ :=
  min ((is_silent audio).length - argmaxBool (((is_silent audio).map not).reverse) +
    min_silence_samples fs) (is_silent audio).length

/-- `trim_silence_int32(audio_array, threshold_db=-60, min_silence_ms=2)`.
Returns `none` when the buffer is empty (then `np.argmax` raises `ValueError`,
caught at the boundary of `save_audio_file`); otherwise
`some (trimmed_audio, start_trim, end_trim)`. -/
def trim_silence_int32 (audio : List (List ℤ)) (fs : ℕ) :
    Option (List (List ℤ) × ℕ × ℕ) :=
  match audio with
  | [] => none
  | _ :: _ =>
    if start_trim audio ≥ end_trim audio fs then some (audio, 0, audio.length)
    else some ((audio.drop (start_trim audio)).take (end_trim audio fs - start_trim audio),
      start_trim audio, end_trim audio fs)

/-- `find_first_transient(audio, threshold_db=-20, window_size=1024)`.
`energy = np.sum(audio[:, 0] ** 2)` is a single scalar (the squares wrap in
`int32`, the sum is exact); the comparison
`energy > threshold_linear ** 2` with `threshold_linear = 0.1 * 2147483647`
is the exact rational comparison `energy * 100 > 2147483647 ^ 2`.
`np.flatnonzero` of the scalar boolean gives `[0]` when it is true and `[]`
when it is false, and the function returns `transients[0]` or the fallback
`0`. -/
def find_first_transient (audio : List (List ℤ)) : ℕ :=
  let energy : ℤ := (audio.map fun fr => sq32 (fr.headD 0)).sum
  let transients : List ℕ := if energy * 100 > 2147483647 ^ 2 then [0] else []
  transients.headD 0

/-- Fuel-driven binary length: `bitLenFuel fuel n` is the number of binary
digits of `n`, provided `fuel ≥ n`. -/
def bitLenFuel : ℕ → ℕ → ℕ
  | 0, _ => 0
  | fuel + 1, n => if n = 0 then 0 else bitLenFuel fuel (n / 2) + 1

/-- Number of binary digits of `n`. -/
def bitLen (n : ℕ) : ℕ := bitLenFuel n n

/-- Digit-by-digit floor square root: starting from `r`, try to set each of
the remaining `k` bits of the candidate root from high to low. -/
def isqrtAux (x : ℕ) : ℕ → ℕ → ℕ
  | 0, r => r
  | k + 1, r =>
    let cand := r + 2 ^ k
    if cand * cand ≤ x then isqrtAux x k cand else isqrtAux x k r

/-- Floor square root of a natural number (kernel-reducible; proved equal to
`Nat.sqrt` below). -/
def isqrt (x : ℕ) : ℕ := isqrtAux x (bitLen x) 0

/-- One sample of a linear ramp multiplication, truncated as
`.astype(np.int32)` truncates toward zero: the value `int(s * (num / den))`
computed in exact arithmetic. `den = 0` only arises for a one-point ramp
`np.linspace(0, 1, 1) = [0.0]`, where the product is `0`, matching `Nat`
division by zero. -/
def truncMulDiv (s : ℤ) (num den : ℕ) : ℤ :=
  let v : ℕ := s.natAbs * num / den
  if s < 0 then -(v : ℤ) else (v : ℤ)

/-- One sample of the square-root fade-out ramp: the value
`int(s * np.sqrt(np.linspace(1, 0, n)[k]))` computed in exact arithmetic.
For `n ≤ 1`, `np.linspace(1, 0, 1) = [1.0]` and the sample is unchanged.
Otherwise the ramp value is `sqrt((n - 1 - k) / (n - 1))` and
`int(s * sqrt((n-1-k)/(n-1))) = sign s * ⌊sqrt(s^2 * (n-1-k) / (n-1))⌋`,
using `⌊sqrt q⌋ = ⌊sqrt ⌊q⌋⌋` for rational `q ≥ 0`. -/
def fadeOutSample (s : ℤ) (k n : ℕ) : ℤ :=
  if n ≤ 1 then s
  else
    let v : ℕ := isqrt (s.natAbs * s.natAbs * (n - 1 - k) / (n - 1))
    if s < 0 then -(v : ℤ) else (v : ℤ)

/-- Multiply each frame of a segment by a per-frame ramp function `g`,
`g` receiving the index of the frame within the segment (the ramp is
broadcast across the channels of the frame). -/
def fadeSeg (g : ℕ → ℤ → ℤ) : ℕ → List (List ℤ) → List (List ℤ)
  | _, [] => []
  | k, fr :: rest => fr.map (g k) :: fadeSeg g (k + 1) rest

/-- Fade-in length in frames used by `save_audio_file`:
`fade_duration = int(0.02 * fs)` (20 ms). -/
def fade_in_duration (fs : ℕ) : ℕ := 2 * fs / 100

/-- Fade-out length in frames used by `save_audio_file`:
`fade_out_duration = int(0.04 * fs)` (40 ms). -/
def fade_out_duration (fs : ℕ) : ℕ := 4 * fs / 100

/-- The inline fade-in of `save_audio_file`:
`fade_in = np.tile(np.linspace(0, 1, n)[:, np.newaxis], (1, channels))` and
`final_audio[:n] = (final_audio[:n] * fade_in).astype(np.int32)`.
No clamping: this definition gives the value produced when
`audio.length ≥ n`; for shorter buffers the broadcast raises `ValueError`
(modelled at the call site in `save_audio_file`). -/
def inlineFadeIn (audio : List (List ℤ)) (n : ℕ) : List (List ℤ) :=
  fadeSeg (fun k s => truncMulDiv s k (n - 1)) 0 (audio.take n) ++ audio.drop n

/-- `apply_fade_int32(audio, fade_length, fade_in)`. Clamps the fade length to
the buffer length (`if audio_length < fade_length: fade_length = audio_length`),
then multiplies the leading (fade-in, ramp `np.linspace(0, 1, n)`) or trailing
(fade-out, ramp `np.sqrt(np.linspace(1, 0, n))`) `n` frames by the ramp and
truncates back to `int32`. -/
def apply_fade_int32 (audio : List (List ℤ)) (fade_length : ℕ) (fadeIn : Bool) :
    List (List ℤ) :=
  let n := min fade_length audio.length
  if fadeIn then
    fadeSeg (fun k s => truncMulDiv s k (n - 1)) 0 (audio.take n) ++ audio.drop n
  else
    audio.take (audio.length - n) ++
      fadeSeg (fun k s => fadeOutSample s k n) 0 (audio.drop (audio.length - n))

/-- The conditional fade-out step of `save_audio_file`: the fade-out is applied
only when `end_trim == audio_array.shape[0]` (the silence trimmer did not trim
the tail of the original concatenated buffer). -/
def fadeOutStep (fs totalLen end_trim : ℕ) (a : List (List ℤ)) : List (List ℤ) :=
  if end_trim = totalLen then apply_fade_int32 a (fade_out_duration fs) false else a

/-- Normalization before the write:
`final_audio.astype(np.float32) / np.iinfo(np.int32).max`, in exact
arithmetic. -/
def normalizeBuf (audio : List (List ℤ)) : List (List ℚ) :=
  audio.map fun fr => fr.map fun s => (s : ℚ) / 2147483647

/-- Configuration read by `save_audio_file`: the sample rate `self.fs`, the
configured base name `settings['recording_name']`, and the contents of the
output folder as seen by `os.listdir(output_folder)`. -/
structure Config where
  fs : ℕ
  recording_name : List Char
  existing_files : List (List Char)

/-- Predicate of the `existing_files` list comprehension:
`f.startswith(recording_name) and f.endswith('.wav') and
f[len(recording_name):].startswith('_')`. -/
def matchesPattern (name f : List Char) : Bool :=
  name.isPrefixOf f && ".wav".toList.isSuffixOf f &&
    decide ((f.drop name.length).take 1 = ['_'])

/-- Python `str.isdigit` on an ASCII string: nonempty and all digits. -/
def isDigitStr (l : List Char) : Bool := !l.isEmpty && l.all Char.isDigit

/-- Numeric value of a digit string (`int(num_str)`). -/
def digitsToNat (l : List Char) : ℕ :=
  l.foldl (fun acc c => 10 * acc + (c.toNat - '0'.toNat)) 0

/-- The set `used_numbers` collected by `save_audio_file`: for every existing
file matching the pattern, the characters strictly between `name + '_'` and
the trailing `'.wav'` (`filename[len(recording_name)+1:-4]`), parsed when they
form a digit string. -/
def usedNumbers (name : List Char) (files : List (List Char)) : List ℕ :=
  (files.filter (matchesPattern name)).filterMap fun f =>
    let numStr := (f.take (f.length - 4)).drop (name.length + 1)
    if isDigitStr numStr then some (digitsToNat numStr) else none

/-- The loop `number = 1; while number in used_numbers: number += 1`,
driven by enough fuel to reach the first free number. -/
def firstFreeFrom (used : List ℕ) : ℕ → ℕ → ℕ
  | 0, n => n
  | fuel + 1, n => if n ∈ used then firstFreeFrom used fuel (n + 1) else n

/-- First available number: the value of `number` after the while loop.
`used.foldr max 0 + 1` steps always suffice, because the loop can only keep
going while the current number is in `used`. -/
def nextNumber (used : List ℕ) : ℕ := firstFreeFrom used (used.foldr max 0 + 1) 1

/-- Zero-padded rendering `f"{number:02d}"`. -/
def pad2 (n : ℕ) : List Char :=
  if n < 10 then '0' :: Nat.toDigits 10 n else Nat.toDigits 10 n

/-- Output filename `f"{recording_name}_{number:02d}.wav"` with `number` the
smallest positive integer not in `used_numbers`. -/
def chooseFilename (name : List Char) (files : List (List Char)) : List Char :=
  name ++ '_' :: pad2 (nextNumber (usedNumbers name files)) ++ ".wav".toList

/-- Result of one invocation of `save_audio_file`:
`noData` — `if not self.audio_data: return` (nothing captured, no write);
`noSignal` — the RMS gate fired (`"No signal detected in recording"`), the
alert is shown and no file is written;
`error` — an exception was raised and caught by the boundary handler
(`"Error saving audio file"`), no file is written;
`saved filename data` — `sf.write(filepath, audio_array_normalized, fs,
subtype='FLOAT')` was reached: a file with that name and normalized content
is written. -/
inductive Outcome where
  | noData : Outcome
  | noSignal : Outcome
  | error : Outcome
  | saved (filename : List Char) (data : List (List ℚ)) : Outcome
deriving DecidableEq

/-- True exactly on the `saved` outcome (a file was written). -/
def Outcome.isSaved : Outcome → Bool
  | .saved _ _ => true
  | _ => false

/-- `save_audio_file(self)`, as a function of the configuration and the list
of captured chunks `self.audio_data` (each chunk a buffer of frames;
`np.concatenate(self.audio_data, axis=0)` is `audioData.flatten`). -/
def save_audio_file (cfg : Config) (audioData : List (List (List ℤ))) : Outcome :=
  match audioData with
  | [] => Outcome.noData
  | _ :: _ =>
    let audio := audioData.flatten
    if rms_below_floor audio then Outcome.noSignal
    else
      match trim_silence_int32 audio cfg.fs with
      | none => Outcome.error
      | some (trimmed_audio, start_trim, end_trim) =>
        let transient_start := find_first_transient trimmed_audio
        let final_audio := trimmed_audio.drop transient_start
        if start_trim = 0 ∧ transient_start = 0 then
          if final_audio.length < fade_in_duration cfg.fs then Outcome.error
          else
            Outcome.saved (chooseFilename cfg.recording_name cfg.existing_files)
              (normalizeBuf (fadeOutStep cfg.fs audio.length end_trim
                (inlineFadeIn final_audio (fade_in_duration cfg.fs))))
        else
          Outcome.saved (chooseFilename cfg.recording_name cfg.existing_files)
            (normalizeBuf (fadeOutStep cfg.fs audio.length end_trim final_audio))

/-! Helper lemmas. -/

/-- With enough fuel, `bitLenFuel` bounds its input by the corresponding
power of two. -/
theorem bitLenFuel_bound : ∀ fuel n, n ≤ fuel → n < 2 ^ bitLenFuel fuel n := by
  intro fuel
  induction fuel with
  | zero =>
    intro n hn
    have h0 : n = 0 := Nat.le_zero.mp hn
    subst h0
    simp [bitLenFuel]
  | succ f ih =>
    intro n hn
    by_cases h0 : n = 0
    · simp [bitLenFuel, h0]
    · have hpos : 0 < n := Nat.pos_of_ne_zero h0
      have hdiv : n / 2 ≤ f := by
        have := Nat.div_lt_self hpos one_lt_two
        omega
      have := ih (n / 2) hdiv
      have hmod := Nat.div_add_mod n 2
      have hm2 : n % 2 < 2 := Nat.mod_lt _ (by decide)
      simp only [bitLenFuel, h0, if_false, pow_succ]
      omega

/-- Invariant of the digit-by-digit square-root loop: if the root so far is
not too big and adding all remaining bits would overshoot, the final result
is the floor square root. -/
theorem isqrtAux_spec (x : ℕ) : ∀ k r, r * r ≤ x → x < (r + 2 ^ k) * (r + 2 ^ k) →
    isqrtAux x k r * isqrtAux x k r ≤ x ∧
      x < (isqrtAux x k r + 1) * (isqrtAux x k r + 1) := by
  intro k
  induction k with
  | zero => intro r h1 h2; simpa [isqrtAux] using ⟨h1, by simpa using h2⟩
  | succ k ih =>
    intro r h1 h2
    simp only [isqrtAux]
    by_cases hc : (r + 2 ^ k) * (r + 2 ^ k) ≤ x
    · simp only [hc, if_true]
      refine ih (r + 2 ^ k) hc ?_
      have : r + 2 ^ k + 2 ^ k = r + 2 ^ (k + 1) := by ring
      rw [this]; exact h2
    · simp only [hc, if_false]
      exact ih r h1 (by omega)

/-- `isqrt` is the floor square root. -/
theorem isqrt_spec (x : ℕ) :
    isqrt x * isqrt x ≤ x ∧ x < (isqrt x + 1) * (isqrt x + 1) := by
  refine isqrtAux_spec x (bitLen x) 0 (by simp) ?_
  have h1 : x < 2 ^ bitLen x := bitLenFuel_bound x x le_rfl
  have h2 : 2 ^ bitLen x ≤ 2 ^ bitLen x * 2 ^ bitLen x :=
    Nat.le_mul_of_pos_left _ (Nat.pos_pow_of_pos _ (by decide))
  simpa using lt_of_lt_of_le h1 h2

/-- `isqrt` agrees with Mathlib's `Nat.sqrt`; this justifies reading
`fadeOutSample` as the exact value `int(s * sqrt(ramp))`. -/
theorem isqrt_eq_sqrt (x : ℕ) : isqrt x = Nat.sqrt x := by
  obtain ⟨h1, h2⟩ := isqrt_spec x
  refine le_antisymm (Nat.le_sqrt.mpr h1) ?_
  have := Nat.sqrt_lt.mpr h2
  omega

/-- `fadeSeg` preserves the number of frames. -/
theorem fadeSeg_length (g : ℕ → ℤ → ℤ) : ∀ (k : ℕ) (l : List (List ℤ)),
    (fadeSeg g k l).length = l.length := by
  intro k l
  induction l generalizing k with
  | nil => rfl
  | cons fr rest ih => simp [fadeSeg, ih]

/-- Specification of the while loop `while number in used: number += 1`:
given enough fuel, the result is the first number `≥ n` outside `used`. -/
theorem firstFreeFrom_spec (used : List ℕ) : ∀ (fuel n : ℕ),
    (∀ m ∈ used, m < n + fuel) →
    firstFreeFrom used fuel n ∉ used ∧ n ≤ firstFreeFrom used fuel n ∧
      ∀ m, n ≤ m → m < firstFreeFrom used fuel n → m ∈ used := by
  intro fuel
  induction fuel with
  | zero =>
    intro n h
    refine ⟨fun hmem => absurd (h n hmem) (by omega), le_rfl, fun m h1 h2 => ?_⟩
    simp only [firstFreeFrom] at h2
    omega
  | succ f ih =>
    intro n h
    simp only [firstFreeFrom]
    by_cases hn : n ∈ used
    · simp only [hn, if_true]
      obtain ⟨r1, r2, r3⟩ := ih (n + 1) (fun m hm => by have := h m hm; omega)
      refine ⟨r1, by omega, fun m h1 h2 => ?_⟩
      rcases Nat.eq_or_lt_of_le h1 with heq | hlt
      · exact heq ▸ hn
      · exact r3 m hlt h2
    · rw [if_neg hn]
      exact ⟨hn, le_rfl, fun m h1 h2 => by omega⟩

/-- Every element of a list is bounded by its `foldr max 0`. -/
theorem le_foldr_max (l : List ℕ) : ∀ m ∈ l, m ≤ l.foldr max 0 := by
  induction l with
  | nil => intro m hm; cases hm
  | cons a t ih =>
    intro m hm
    rcases hm with _ | hm
    · exact le_max_left _ _
    · exact le_trans (ih m ‹m ∈ t›) (le_max_right _ _)

/-- `nextNumber` is the smallest positive integer outside `used`. -/
theorem nextNumber_spec (used : List ℕ) :
    nextNumber used ∉ used ∧ 1 ≤ nextNumber used ∧
      ∀ m, 1 ≤ m → m < nextNumber used → m ∈ used := by
  refine firstFreeFrom_spec used (used.foldr max 0 + 1) 1 (fun m hm => ?_)
  have := le_foldr_max used m hm
  omega

/-- First-`true` characterization of `List.findIdx id`. -/
theorem findIdx_id_eq (l : List Bool) : ∀ (k : ℕ),
    l.get? k = some true → (∀ j, j < k → l.get? j = some false) →
    l.findIdx id = k := by
  induction l with
  | nil => intro k ht _; simp at ht
  | cons a t ih =>
    intro k ht hf
    cases k with
    | zero =>
      simp only [List.get?] at ht
      injection ht with ht
      simp [List.findIdx_cons, ht]
    | succ k =>
      have h0 := hf 0 (Nat.succ_pos k)
      simp only [List.get?] at h0 ht
      injection h0 with h0
      simp only [List.findIdx_cons, h0, cond_false]
      have := ih k ht (fun j hj => hf (j + 1) (by omega))
      simp [this]

/-- `argmaxBool` at a list whose first `true` sits at index `k`. -/
theorem argmaxBool_eq (l : List Bool) (k : ℕ)
    (ht : l.get? k = some true) (hf : ∀ j, j < k → l.get? j = some false) :
    argmaxBool l = k := by
  have hany : l.any id = true :=
    List.any_eq_true.mpr ⟨true, List.get?_mem ht, rfl⟩
  rw [argmaxBool, if_pos hany]
  exact findIdx_id_eq l k ht hf

/-- `argmaxBool` of an all-`false` list is `0` (as `np.argmax` returns the
first maximal element). -/
theorem argmaxBool_all_false (l : List Bool) (h : ∀ b ∈ l, b = false) :
    argmaxBool l = 0 := by
  have : l.any id = false := by
    simp only [List.any_eq_false]
    intro x hx
    simp [h x hx]
  rw [argmaxBool, this]
  simp

/-- Unfolding of `save_audio_file` past the level gate and the silence
trimmer: what remains is the fade-in decision (with its possible broadcast
error), the fade-out decision, normalization and the filename choice. -/
theorem save_eq (cfg : Config) (c : List (List ℤ)) (rest : List (List (List ℤ)))
    (trimmed : List (List ℤ)) (s e tr : ℕ)
    (hgate : rms_below_floor (c :: rest : List (List (List ℤ))).flatten = false)
    (htrim : trim_silence_int32 (c :: rest : List (List (List ℤ))).flatten cfg.fs =
      some (trimmed, s, e))
    (htr : find_first_transient trimmed = tr) :
    save_audio_file cfg (c :: rest) =
      if s = 0 ∧ tr = 0 then
        (if (trimmed.drop tr).length < fade_in_duration cfg.fs then Outcome.error
         else Outcome.saved (chooseFilename cfg.recording_name cfg.existing_files)
           (normalizeBuf (fadeOutStep cfg.fs (c :: rest : List (List (List ℤ))).flatten.length e
             (inlineFadeIn (trimmed.drop tr) (fade_in_duration cfg.fs)))))
      else
        Outcome.saved (chooseFilename cfg.recording_name cfg.existing_files)
          (normalizeBuf (fadeOutStep cfg.fs (c :: rest : List (List (List ℤ))).flatten.length e
            (trimmed.drop tr))) := by
  simp only [save_audio_file]
  rw [if_neg (by rw [hgate]; exact Bool.false_ne_true)]
  rw [htrim]
  dsimp only
  rw [htr]

/-! Claim theorems. -/

/-- C10: for every input buffer the transient locator returns `0`: its energy
value is the single scalar sum of squared first-channel samples, the threshold
comparison on that scalar yields index `0` when it exceeds the threshold and
the fallback `0` otherwise, so the transient stage never trims any samples
from the buffer (`trimmed_audio[transient_start:]` is the whole buffer). -/
theorem transient_locator_returns_zero (audio : List (List ℤ)) :
    find_first_transient audio = 0 ∧
      List.drop (find_first_transient audio) audio = audio := by
  have h : find_first_transient audio = 0 := by
    unfold find_first_transient
    dsimp only
    split <;> rfl
  exact ⟨h, by rw [h]; exact List.drop_zero audio⟩

/-- C8: the output filename is the configured base name plus the smallest
unused positive integer suffix among the numeric suffixes of existing
`{base_name}_{NN}.wav` files, zero-padded to two digits; in particular,
given existing `recording_01.wav` and `recording_03.wav` the next write
produces `recording_02.wav` (gap-filling). -/
theorem filename_gap_filling :
    (∀ (name : List Char) (files : List (List Char)),
      nextNumber (usedNumbers name files) ∉ usedNumbers name files ∧
      1 ≤ nextNumber (usedNumbers name files) ∧
      (∀ m, 1 ≤ m → m < nextNumber (usedNumbers name files) →
        m ∈ usedNumbers name files) ∧
      chooseFilename name files =
        name ++ '_' :: pad2 (nextNumber (usedNumbers name files)) ++ ".wav".toList) ∧
    chooseFilename "recording".toList
        ["recording_01.wav".toList, "recording_03.wav".toList] =
      "recording_02.wav".toList := by
  constructor
  · intro name files
    obtain ⟨h1, h2, h3⟩ := nextNumber_spec (usedNumbers name files)
    exact ⟨h1, h2, h3, rfl⟩
  · decide

/-- Witness for C8: on the folder holding `recording_01.wav` and
`recording_03.wav`, the number `1` is indeed recorded as used and the chosen
filename is `recording_02.wav`. -/
theorem filename_gap_filling_witness :
    (1 : ℕ) ∈ usedNumbers "recording".toList
        ["recording_01.wav".toList, "recording_03.wav".toList] ∧
    chooseFilename "recording".toList
        ["recording_01.wav".toList, "recording_03.wav".toList] =
      "recording_02.wav".toList :=
  ⟨(filename_gap_filling.1 _ _).2.2.1 1 le_rfl (by decide), filename_gap_filling.2⟩

/-- C1: whenever the RMS of the captured buffer — `sqrt(mean(buffer ** 2))`
over all samples and channels, modelled exactly by `rms_below_floor` — is
below the `1e-6` silence floor, `save_audio_file` aborts with the distinct
"no signal detected" outcome and writes no file; in particular a buffer of
all-zero samples triggers this abort. -/
theorem rms_gate_no_signal (cfg : Config) (chunks : List (List (List ℤ)))
    (hne : chunks ≠ []) :
    (rms_below_floor chunks.flatten = true →
      save_audio_file cfg chunks = Outcome.noSignal) ∧
    ((∀ ch ∈ chunks, ∀ fr ∈ ch, ∀ s ∈ fr, s = (0 : ℤ)) →
      0 < numSamples chunks.flatten →
      save_audio_file cfg chunks = Outcome.noSignal) := by
  obtain ⟨c, rest, rfl⟩ : ∃ c rest, chunks = c :: rest := by
    cases chunks with
    | nil => exact absurd rfl hne
    | cons c rest => exact ⟨c, rest, rfl⟩
  have key : rms_below_floor (c :: rest).flatten = true →
      save_audio_file cfg (c :: rest) = Outcome.noSignal := by
    intro hgate
    simp only [save_audio_file]
    rw [if_pos hgate]
  refine ⟨key, fun hzero hN => key ?_⟩
  have hsum : sumSq (c :: rest).flatten = 0 := by
    apply List.sum_eq_zero
    intro x hx
    simp only [sumSq, List.mem_map] at hx ⊢
    obtain ⟨fr, hfr, rfl⟩ := hx
    apply List.sum_eq_zero
    intro y hy
    simp only [List.mem_map] at hy
    obtain ⟨s, hs, rfl⟩ := hy
    obtain ⟨ch, hch, hfr2⟩ := List.mem_flatten.mp hfr
    rw [hzero ch hch fr hfr2 s hs]
    decide
  simp only [rms_below_floor, hsum, zero_mul, Bool.and_eq_true, decide_eq_true_eq]
  exact ⟨le_refl 0, by exact_mod_cast hN⟩

/-- Witness for C1: a two-frame all-zero stereo capture aborts with the
"no signal" outcome. -/
theorem rms_gate_no_signal_witness :
    save_audio_file ⟨48000, ['r', 'e', 'c'], []⟩ [[[0, 0], [0, 0]]] =
      Outcome.noSignal :=
  (rms_gate_no_signal ⟨48000, ['r', 'e', 'c'], []⟩ [[[0, 0], [0, 0]]]
    (by decide)).2 (by decide) (by decide)

/-- Counterexample for C9: a 50-frame capture (fewer than the claimed
100-frame minimum) is not discarded — the pipeline runs to completion and
writes a file. -/
theorem too_short_buffer_counterexample :
    (List.replicate 9 [(0 : ℤ), 0] ++
      List.replicate 40 [2147483647, 2147483647] ++ [[0, 0]]).length = 50 ∧
    Outcome.isSaved (save_audio_file ⟨48000, ['r', 'e', 'c'], []⟩
      [List.replicate 9 [(0 : ℤ), 0] ++
        List.replicate 40 [2147483647, 2147483647] ++ [[0, 0]]]) = true := by
  exact ⟨by decide, by decide⟩

/-- C9 amended: the only silently discarded capture is an empty one
(`if not self.audio_data: return`); there is no minimum frame count — e.g.
a 30-frame capture is processed and written. -/
theorem no_capture_discarded_silently :
    (∀ cfg : Config, save_audio_file cfg [] = Outcome.noData) ∧
    Outcome.isSaved (save_audio_file ⟨48000, ['r', 'e', 'c'], []⟩
      [List.replicate 5 [(0 : ℤ), 0] ++
        List.replicate 24 [2147483647, 2147483647] ++ [[0, 0]]]) = true := by
  exact ⟨fun _ => rfl, by decide⟩

/-- Counterexample for C2: on the fade-in path the fade length is not clamped.
A one-frame buffer with signal at sample 0 reaches the 20 ms inline fade-in
(960 frames at 48 kHz), whose broadcast fails, so the save aborts with an
error instead of applying a clamped fade. -/
theorem fade_clamp_counterexample :
    ([[(2147483647 : ℤ), 2147483647]].length < fade_in_duration 48000) ∧
    save_audio_file ⟨48000, ['r', 'e', 'c'], []⟩
      [[[(2147483647 : ℤ), 2147483647]]] = Outcome.error := by
  exact ⟨by decide, by decide⟩

/-- C5: a (nonempty) buffer in which every frame is below the silence
amplitude threshold (a frame being silent iff every channel's absolute sample
value is below the threshold) is returned unchanged by the silence trimmer,
with offsets `(0, length)` — never an empty buffer. -/
theorem trim_all_silent (audio : List (List ℤ)) (fs : ℕ) (hne : audio ≠ [])
    (hsil : ∀ fr ∈ audio, isSilentFrame fr = true) :
    trim_silence_int32 audio fs = some (audio, 0, audio.length) := by
  obtain ⟨a, t, rfl⟩ : ∃ a t, audio = a :: t := by
    cases audio with
    | nil => exact absurd rfl hne
    | cons a t => exact ⟨a, t, rfl⟩
  have hst : start_trim (a :: t) = (a :: t).length := by
    have hhead : (is_silent (a :: t)).headD false = true := by
      simp [is_silent, hsil a (List.mem_cons_self a t)]
    have h1 : start_trim_raw (a :: t) = 0 := by
      apply argmaxBool_all_false
      intro x hx
      simp only [is_silent, List.mem_map] at hx
      obtain ⟨b, ⟨fr, hfr, rfl⟩, rfl⟩ := hx
      rw [hsil fr hfr]
      rfl
    rw [start_trim, if_pos ⟨h1, hhead⟩]
    simp [is_silent]
  have hend : end_trim (a :: t) fs ≤ (a :: t).length := by
    rw [end_trim]
    exact le_trans (min_le_right _ _) (by simp [is_silent])
  simp only [trim_silence_int32]
  rw [if_pos (le_trans hend (le_of_eq hst.symm))]

/-- C7: whatever the silence trimmer returns satisfies
`0 ≤ start_offset ≤ end_offset ≤ frame_count`, and the returned buffer is
exactly the slice of the input between the offsets (in the all-silent
fallback the offsets are `(0, length)` and the slice is the whole input). -/
theorem trim_result_invariant (audio : List (List ℤ)) (fs : ℕ)
    (t : List (List ℤ)) (s e : ℕ)
    (h : trim_silence_int32 audio fs = some (t, s, e)) :
    s ≤ e ∧ e ≤ audio.length ∧ t = (audio.drop s).take (e - s) := by
  cases audio with
  | nil => simp [trim_silence_int32] at h
  | cons a l =>
    have hend : end_trim (a :: l) fs ≤ (a :: l).length := by
      rw [end_trim]
      exact le_trans (min_le_right _ _) (by simp [is_silent])
    simp only [trim_silence_int32] at h
    split at h
    · rw [Option.some.injEq, Prod.mk.injEq, Prod.mk.injEq] at h
      obtain ⟨h1, h2, h3⟩ := h
      subst h1; subst h2; subst h3
      exact ⟨Nat.zero_le _, le_rfl, by simp⟩
    · rw [Option.some.injEq, Prod.mk.injEq, Prod.mk.injEq] at h
      obtain ⟨h1, h2, h3⟩ := h
      subst h1; subst h2; subst h3
      refine ⟨le_of_lt (lt_of_not_le (by assumption)), hend, rfl⟩

/-- Witness for C5: a two-frame buffer of small (silent but nonzero) samples
is returned unchanged with offsets `(0, 2)`. -/
theorem trim_all_silent_witness :
    trim_silence_int32 [[(1000 : ℤ), -1000], [0, 5]] 48000 =
      some ([[(1000 : ℤ), -1000], [0, 5]], 0,
        ([[(1000 : ℤ), -1000], [0, 5]] : List (List ℤ)).length) :=
  trim_all_silent [[(1000 : ℤ), -1000], [0, 5]] 48000 (by decide) (by decide)

/-- Witness for C7: on `[[0,0], [loud,loud], [0,0]]` the trimmer returns
offsets `(1, 3)` with `1 ≤ 3 ≤ 3` and the buffer equal to the slice. -/
theorem trim_result_invariant_witness :
    1 ≤ 3 ∧
    3 ≤ ([[(0 : ℤ), 0], [2147483647, 2147483647], [0, 0]] :
        List (List ℤ)).length ∧
    [[(2147483647 : ℤ), 2147483647], [0, 0]] =
      (([[(0 : ℤ), 0], [2147483647, 2147483647], [0, 0]] :
        List (List ℤ)).drop 1).take (3 - 1) :=
  trim_result_invariant [[(0 : ℤ), 0], [2147483647, 2147483647], [0, 0]] 48000
    [[(2147483647 : ℤ), 2147483647], [0, 0]] 1 3 (by decide)

/-- C6: on a buffer with a single contiguous non-silent region `[a, b)` (all
frames before `a` and from `b` onward silent), the silence trimmer returns
`start_offset = a` and an `end_offset` lying in
`[b, min (b + guard_frames) length]` (it is exactly
`min (b + guard_frames) length`), where `guard_frames` is 2 ms converted to
frames. -/
theorem trim_single_region (audio : List (List ℤ)) (fs a b : ℕ)
    (hab : a < b) (hbl : b ≤ audio.length)
    (hpre : ∀ i fr, i < a → audio.get? i = some fr → isSilentFrame fr = true)
    (hmid : ∀ i fr, a ≤ i → i < b → audio.get? i = some fr → isSilentFrame fr = false)
    (hpost : ∀ i fr, b ≤ i → audio.get? i = some fr → isSilentFrame fr = true) :
    trim_silence_int32 audio fs =
      some ((audio.drop a).take (min (b + min_silence_samples fs) audio.length - a),
        a, min (b + min_silence_samples fs) audio.length) ∧
    b ≤ min (b + min_silence_samples fs) audio.length ∧
    min (b + min_silence_samples fs) audio.length ≤
      min (b + min_silence_samples fs) audio.length := by
  have hlen0 : 0 < audio.length := by omega
  obtain ⟨c, rest, rfl⟩ : ∃ c rest, audio = c :: rest := by
    cases audio with
    | nil => simp at hlen0
    | cons c rest => exact ⟨c, rest, rfl⟩
  generalize haud : c :: rest = audio at *
  have hlenN : ((is_silent audio).map not).length = audio.length := by
    simp [is_silent]
  have hNget : ∀ i, ((is_silent audio).map not).get? i =
      (audio.get? i).map (not ∘ isSilentFrame) := by
    intro i
    simp [is_silent, List.get?_map, Option.map_map]
  have halen : a < audio.length := lt_of_lt_of_le hab hbl
  obtain ⟨fra, hfra⟩ : ∃ fr, audio.get? a = some fr := ⟨_, List.get?_eq_get halen⟩
  have hraw : start_trim_raw audio = a := by
    apply argmaxBool_eq
    · rw [hNget a, hfra]
      simp [hmid a fra le_rfl hab hfra]
    · intro j hj
      obtain ⟨frj, hfrj⟩ : ∃ fr, audio.get? j = some fr :=
        ⟨_, List.get?_eq_get (lt_trans hj halen)⟩
      rw [hNget j, hfrj]
      simp [hpre j frj hj hfrj]
  have hstart : start_trim audio = a := by
    rw [start_trim]
    by_cases ha0 : a = 0
    · rw [if_neg]
      · exact hraw
      · rintro ⟨-, h2⟩
        have hc0 : audio.get? 0 = some c := by rw [← haud]; rfl
        have hcns : isSilentFrame c = false := hmid 0 c (by omega) (by omega) hc0
        have : (is_silent audio).headD false = isSilentFrame c := by
          rw [← haud]; rfl
        rw [this, hcns] at h2
        cases h2
    · rw [if_neg]
      · exact hraw
      · rintro ⟨h1, -⟩
        rw [hraw] at h1
        exact ha0 h1
  have hrev : argmaxBool (((is_silent audio).map not).reverse) =
      audio.length - b := by
    apply argmaxBool_eq
    · rw [List.get?_reverse (by rw [hlenN]; omega)]
      have hidx : ((is_silent audio).map not).length - 1 - (audio.length - b) =
          b - 1 := by rw [hlenN]; omega
      rw [hidx]
      obtain ⟨frb, hfrb⟩ : ∃ fr, audio.get? (b - 1) = some fr :=
        ⟨_, List.get?_eq_get (by omega)⟩
      rw [hNget, hfrb]
      simp [hmid (b - 1) frb (by omega) (by omega) hfrb]
    · intro j hj
      rw [List.get?_reverse (by rw [hlenN]; omega)]
      have hidx : ((is_silent audio).map not).length - 1 - j =
          audio.length - 1 - j := by rw [hlenN]
      rw [hidx]
      obtain ⟨frj, hfrj⟩ : ∃ fr, audio.get? (audio.length - 1 - j) = some fr :=
        ⟨_, List.get?_eq_get (by omega)⟩
      rw [hNget, hfrj]
      simp [hpost (audio.length - 1 - j) frj (by omega) hfrj]
  have hent : end_trim audio fs = min (b + min_silence_samples fs) audio.length := by
    rw [end_trim, hrev]
    have h1 : (is_silent audio).length = audio.length := by simp [is_silent]
    rw [h1]
    congr 1
    omega
  have hguard : ¬ (start_trim audio ≥ end_trim audio fs) := by
    rw [hstart, hent]
    have : b ≤ min (b + min_silence_samples fs) audio.length :=
      le_min (Nat.le_add_right _ _) hbl
    omega
  refine ⟨?_, le_min (Nat.le_add_right _ _) hbl, le_rfl⟩
  rw [← haud]
  simp only [trim_silence_int32]
  rw [haud, if_neg hguard, hstart, hent]

/-- Witness for C6: on `[[0,0], [loud,loud], [0,0]]` (single non-silent region
`[1, 2)`), the trimmer returns `start_offset = 1` and
`end_offset = min (2 + guard) 3`, which is at least `2`. -/
theorem trim_single_region_witness :
    trim_silence_int32 [[0, 0], [(2147483647 : ℤ), 2147483647], [0, 0]] 48000 =
      some ((([[0, 0], [(2147483647 : ℤ), 2147483647], [0, 0]] :
            List (List ℤ)).drop 1).take
          (min (2 + min_silence_samples 48000)
            ([[0, 0], [(2147483647 : ℤ), 2147483647], [0, 0]] :
              List (List ℤ)).length - 1), 1,
        min (2 + min_silence_samples 48000)
          ([[0, 0], [(2147483647 : ℤ), 2147483647], [0, 0]] :
            List (List ℤ)).length) ∧
    2 ≤ min (2 + min_silence_samples 48000)
        ([[0, 0], [(2147483647 : ℤ), 2147483647], [0, 0]] :
          List (List ℤ)).length := by
  have hpre : ∀ (i : ℕ) (fr : List ℤ), i < 1 →
      ([[0, 0], [(2147483647 : ℤ), 2147483647], [0, 0]] :
        List (List ℤ)).get? i = some fr → isSilentFrame fr = true := by
    intro i fr hi hget
    have h0 : i = 0 := by omega
    subst h0
    injection hget with h
    rw [← h]
    decide
  have hmid : ∀ (i : ℕ) (fr : List ℤ), 1 ≤ i → i < 2 →
      ([[0, 0], [(2147483647 : ℤ), 2147483647], [0, 0]] :
        List (List ℤ)).get? i = some fr → isSilentFrame fr = false := by
    intro i fr h1 h2 hget
    have h0 : i = 1 := by omega
    subst h0
    injection hget with h
    rw [← h]
    decide
  have hpost : ∀ (i : ℕ) (fr : List ℤ), 2 ≤ i →
      ([[0, 0], [(2147483647 : ℤ), 2147483647], [0, 0]] :
        List (List ℤ)).get? i = some fr → isSilentFrame fr = true := by
    intro i fr h1 hget
    rcases Nat.eq_or_lt_of_le h1 with h0 | h0
    · rw [← h0] at hget
      injection hget with h
      rw [← h]
      decide
    · have hnone : ([[0, 0], [(2147483647 : ℤ), 2147483647], [0, 0]] :
          List (List ℤ)).get? i = none := by
        rw [List.get?_eq_none]
        simp only [List.length_cons, List.length_nil]
        omega
      rw [hnone] at hget
      cases hget
  obtain ⟨h1, h2, -⟩ :=
    trim_single_region [[0, 0], [(2147483647 : ℤ), 2147483647], [0, 0]] 48000 1 2
      (by omega) (by decide) hpre hmid hpost
  exact ⟨h1, h2⟩

/-- C3: the 20 ms linear fade-in (ramp 0 to 1) is applied if and only if both
`start_offset = 0` (the silence trimmer removed nothing at the head) and
`transient_offset = 0` (the transient locator found nothing); with leading
silence trimmed or a transient found, no fade-in is applied (the saved data is
the unfaded buffer, up to the independent fade-out step). -/
theorem fade_in_iff (cfg : Config) (chunks : List (List (List ℤ)))
    (trimmed : List (List ℤ)) (s e tr : ℕ)
    (hne : chunks ≠ [])
    (hgate : rms_below_floor chunks.flatten = false)
    (htrim : trim_silence_int32 chunks.flatten cfg.fs = some (trimmed, s, e))
    (htr : find_first_transient trimmed = tr) :
    ((s = 0 ∧ tr = 0) → fade_in_duration cfg.fs ≤ (trimmed.drop tr).length →
      save_audio_file cfg chunks =
        Outcome.saved (chooseFilename cfg.recording_name cfg.existing_files)
          (normalizeBuf (fadeOutStep cfg.fs chunks.flatten.length e
            (inlineFadeIn (trimmed.drop tr) (fade_in_duration cfg.fs))))) ∧
    (¬ (s = 0 ∧ tr = 0) →
      save_audio_file cfg chunks =
        Outcome.saved (chooseFilename cfg.recording_name cfg.existing_files)
          (normalizeBuf (fadeOutStep cfg.fs chunks.flatten.length e
            (trimmed.drop tr)))) := by
  obtain ⟨c, rest, rfl⟩ : ∃ c rest, chunks = c :: rest := by
    cases chunks with
    | nil => exact absurd rfl hne
    | cons c rest => exact ⟨c, rest, rfl⟩
  rw [save_eq cfg c rest trimmed s e tr hgate htrim htr]
  constructor
  · intro hc hlen
    rw [if_pos hc, if_neg (not_lt.mpr hlen)]
  · intro hc
    rw [if_neg hc]

/-- Witness for C3: a three-frame buffer with content at sample 0 (no head
trim, no transient) at `fs = 100` receives the inline fade-in. -/
theorem fade_in_iff_witness :
    save_audio_file ⟨100, ['r', 'e', 'c'], []⟩
        [[[(2147483647 : ℤ), 2147483647], [2147483647, 2147483647],
          [2147483647, 2147483647]]] =
      Outcome.saved (chooseFilename ['r', 'e', 'c'] [])
        (normalizeBuf (fadeOutStep 100
          ([[[(2147483647 : ℤ), 2147483647], [2147483647, 2147483647],
            [2147483647, 2147483647]]] :
              List (List (List ℤ))).flatten.length 3
          (inlineFadeIn (([[(2147483647 : ℤ), 2147483647],
            [2147483647, 2147483647], [2147483647, 2147483647]] :
              List (List ℤ)).drop 0) (fade_in_duration 100)))) :=
  (fade_in_iff ⟨100, ['r', 'e', 'c'], []⟩
    [[[(2147483647 : ℤ), 2147483647], [2147483647, 2147483647],
      [2147483647, 2147483647]]]
    [[(2147483647 : ℤ), 2147483647], [2147483647, 2147483647],
      [2147483647, 2147483647]] 0 3 0
    (by decide) (by decide) (by decide) (by decide)).1 ⟨rfl, rfl⟩ (by decide)

/-- C4: the 40 ms fade-out with ramp `sqrt(linspace(1, 0, N))` (embodied in
`apply_fade_int32 _ _ false`) is applied to the tail if and only if
`end_offset` equals the length of the original concatenated buffer (the
silence trimmer did not trim the tail); a buffer whose tail was trimmed
receives no fade-out. -/
theorem fade_out_iff (cfg : Config) (chunks : List (List (List ℤ)))
    (trimmed mid : List (List ℤ)) (s e tr : ℕ)
    (hne : chunks ≠ [])
    (hgate : rms_below_floor chunks.flatten = false)
    (htrim : trim_silence_int32 chunks.flatten cfg.fs = some (trimmed, s, e))
    (htr : find_first_transient trimmed = tr)
    (hnoerr : (s = 0 ∧ tr = 0) → fade_in_duration cfg.fs ≤ (trimmed.drop tr).length)
    (hmid : mid = if s = 0 ∧ tr = 0 then
      inlineFadeIn (trimmed.drop tr) (fade_in_duration cfg.fs) else trimmed.drop tr) :
    (e = chunks.flatten.length →
      save_audio_file cfg chunks =
        Outcome.saved (chooseFilename cfg.recording_name cfg.existing_files)
          (normalizeBuf (apply_fade_int32 mid (fade_out_duration cfg.fs) false))) ∧
    (e ≠ chunks.flatten.length →
      save_audio_file cfg chunks =
        Outcome.saved (chooseFilename cfg.recording_name cfg.existing_files)
          (normalizeBuf mid)) := by
  obtain ⟨c, rest, rfl⟩ : ∃ c rest, chunks = c :: rest := by
    cases chunks with
    | nil => exact absurd rfl hne
    | cons c rest => exact ⟨c, rest, rfl⟩
  rw [save_eq cfg c rest trimmed s e tr hgate htrim htr]
  by_cases hc : s = 0 ∧ tr = 0
  · rw [if_pos hc, if_neg (not_lt.mpr (hnoerr hc)), hmid, if_pos hc]
    constructor
    · intro he
      rw [fadeOutStep, if_pos he]
    · intro he
      rw [fadeOutStep, if_neg he]
  · rw [if_neg hc, hmid, if_neg hc]
    constructor
    · intro he
      rw [fadeOutStep, if_pos he]
    · intro he
      rw [fadeOutStep, if_neg he]

/-- Witness for C4: a four-frame buffer with one leading silent frame at
`fs = 100`: the head is trimmed (`start_offset = 1`, so no fade-in) while the
tail is untouched (`end_offset = 4 = original length`), so the square-root
fade-out is applied. -/
theorem fade_out_iff_witness :
    save_audio_file ⟨100, ['r', 'e', 'c'], []⟩
        [[[(0 : ℤ), 0], [2147483647, 2147483647], [2147483647, 2147483647],
          [2147483647, 2147483647]]] =
      Outcome.saved (chooseFilename ['r', 'e', 'c'] [])
        (normalizeBuf (apply_fade_int32
          [[(2147483647 : ℤ), 2147483647], [2147483647, 2147483647],
            [2147483647, 2147483647]] (fade_out_duration 100) false)) :=
  (fade_out_iff ⟨100, ['r', 'e', 'c'], []⟩
    [[[(0 : ℤ), 0], [2147483647, 2147483647], [2147483647, 2147483647],
      [2147483647, 2147483647]]]
    [[(2147483647 : ℤ), 2147483647], [2147483647, 2147483647],
      [2147483647, 2147483647]]
    [[(2147483647 : ℤ), 2147483647], [2147483647, 2147483647],
      [2147483647, 2147483647]] 1 4 0
    (by decide) (by decide) (by decide) (by decide)
    (by rintro ⟨h, -⟩; exact absurd h (by decide))
    (by rw [if_neg (by decide)]; rfl)).1 (by decide)

/-- C2 amended: `apply_fade_int32` (the function used for the fade-out path)
clamps the fade length down to the buffer length and applies the fade without
error; but the inline fade-in path of `save_audio_file` does not clamp — when
the buffer is shorter than the 20 ms fade-in length the broadcast fails, the
boundary handler catches the error, and no file is written. -/
theorem fade_clamping_amended (audio : List (List ℤ)) (n : ℕ) (b : Bool)
    (cfg : Config) (chunks : List (List (List ℤ)))
    (trimmed : List (List ℤ)) (s e tr : ℕ)
    (hne : chunks ≠ [])
    (hgate : rms_below_floor chunks.flatten = false)
    (htrim : trim_silence_int32 chunks.flatten cfg.fs = some (trimmed, s, e))
    (htr : find_first_transient trimmed = tr)
    (hcond : s = 0 ∧ tr = 0)
    (hshort : (trimmed.drop tr).length < fade_in_duration cfg.fs) :
    (apply_fade_int32 audio n b).length = audio.length ∧
    (audio.length ≤ n →
      apply_fade_int32 audio n b = apply_fade_int32 audio audio.length b) ∧
    save_audio_file cfg chunks = Outcome.error := by
  refine ⟨?_, ?_, ?_⟩
  · rw [apply_fade_int32]
    split
    · simp only [List.length_append, fadeSeg_length, List.length_take,
        List.length_drop]
      omega
    · simp only [List.length_append, fadeSeg_length, List.length_take,
        List.length_drop]
      omega
  · intro h
    simp only [apply_fade_int32, Nat.min_eq_right h, Nat.min_self]
  · obtain ⟨c, rest, rfl⟩ : ∃ c rest, chunks = c :: rest := by
      cases chunks with
      | nil => exact absurd rfl hne
      | cons c rest => exact ⟨c, rest, rfl⟩
    rw [save_eq cfg c rest trimmed s e tr hgate htrim htr]
    rw [if_pos hcond, if_pos hshort]

/-- Witness for C2 (amended): the fade-out path clamps a length-7 fade on a
two-frame buffer and succeeds, while a one-frame capture with signal at
sample 0 hits the unclamped inline fade-in and the save errors out. -/
theorem fade_clamping_amended_witness :
    (apply_fade_int32 [[(5 : ℤ), 5], [6, 6]] 7 false).length =
      ([[(5 : ℤ), 5], [6, 6]] : List (List ℤ)).length ∧
    (([[(5 : ℤ), 5], [6, 6]] : List (List ℤ)).length ≤ 7 →
      apply_fade_int32 [[(5 : ℤ), 5], [6, 6]] 7 false =
        apply_fade_int32 [[(5 : ℤ), 5], [6, 6]]
          ([[(5 : ℤ), 5], [6, 6]] : List (List ℤ)).length false) ∧
    save_audio_file ⟨48000, ['r', 'e', 'c'], []⟩
      [[[(2147483647 : ℤ), 2147483647]]] = Outcome.error :=
  fade_clamping_amended [[(5 : ℤ), 5], [6, 6]] 7 false
    ⟨48000, ['r', 'e', 'c'], []⟩ [[[(2147483647 : ℤ), 2147483647]]]
    [[(2147483647 : ℤ), 2147483647]] 0 1 0
    (by decide) (by decide) (by decide) (by decide) ⟨rfl, rfl⟩ (by decide)

end SoundGrabber
